import Mathlib

set_option maxRecDepth 16384

/-- AST nodes of FibLang as the evaluator in fib.cc consumes them
(tags STATEMENTS, DEFINITION, TERNARY, CONDITION, INFIX, CALL, FOR,
Identifier, Number).  `arith` is the INFIX node: a first operand followed
by (operator-token, operand) pairs.  `call` keeps the callee as the token
of its first child, exactly as `eval` reads `ast.nodes[0]->token`. -/
inductive Ast where
  | statements (ss : List Ast)
  | definition (name param : String) (body : Ast)
  | ternary (cond thenB elseB : Ast)
  | condition (lhs rhs : Ast)
  | arith (first : Ast) (rest : List (String × Ast))
  | call (name : String) (arg : Ast)
  | forLoop (nm : String) (lo hi : Ast) (body : Ast)
  | ident (s : String)
  | number (n : Int)

/-- The code a Function value runs when called: either a user-defined body
AST (from a DEFINITION node) or the built-in puts primitive installed by
Environment::make_with_builtins. -/
inductive FnCode where
  | bodyAst (a : Ast)
  | putsPrim

/-- Runtime values: Value::Type is Nil, Bool, Long or Function; a Function
carries its parameter name and its code. -/
inductive Value where
  | nil
  | bool (b : Bool)
  | long (n : Int)
  | fn (param : String) (code : FnCode)

/-- Errors the interpreter can signal: runtime_error("type error."),
runtime_error("undefined variable ...") with the name, the
logic_error("invalid internal condition.") of operator<, fuel exhaustion
of the embedding, and a thrown Value (the control-flow signal the CALL
case's catch handler would intercept). -/
inductive Err where
  | typeError
  | undefinedVariable (name : String)
  | invalidInternal
  | outOfFuel
  | thrownValue (v : Value)

/-- Value::to_bool: Bool yields itself, Long yields (v != 0), anything
else throws "type error.". -/
def Value.to_bool : Value → Except Err Bool
  | .bool b => .ok b
  | .long n => .ok (n != 0)
  | _ => .error .typeError

/-- Value::to_long: Long yields itself, anything else throws
"type error.". -/
def Value.to_long : Value → Except Err Int
  | .long n => .ok n
  | _ => .error .typeError

/-- Value::to_function: Function yields its (param, code), anything else
throws "type error.". -/
def Value.to_function : Value → Except Err (String × FnCode)
  | .fn p c => .ok (p, c)
  | _ => .error .typeError

/-- Value::operator<: switch on the left value's type.  Nil is never less
than anything; a Bool left compares to_bool() against rhs.to_bool(); a
Long left compares to_long() against rhs.to_long(); a Function left hits
the default branch, logic_error("invalid internal condition."). -/
def Value.lt (a b : Value) : Except Err Bool :=
  match a with
  | .nil => .ok false
  | .bool x =>
    match b.to_bool with
    | .ok y => .ok (!x && y)
    | .error e => .error e
  | .long m =>
    match b.to_long with
    | .ok n => .ok (decide (m < n))
    | .error e => .error e
  | .fn _ _ => .error .invalidInternal

/-- Value::str: display string used by the puts builtin. -/
def Value.str : Value → String
  | .nil => "nil"
  | .bool b => if b then "true" else "false"
  | .long n => toString n
  | .fn _ _ => "[function]"

/-- One scope frame: the map<string_view, Value> of an Environment. -/
abbrev Frame := List (String × Value)

/-- An environment chain: the innermost frame first, each later frame the
outer of the one before it (the shared_ptr<Environment> parent chain). -/
abbrev Env := List Frame

/-- Lookup inside a single frame (map::find / map::at). -/
def frame_get : Frame → String → Option Value
  | [], _ => none
  | (k, v) :: rest, s => if k = s then some v else frame_get rest s

/-- Environment::set_value uses map::emplace, which inserts only when the
key is absent: an existing binding is left untouched. -/
def set_value (fr : Frame) (s : String) (v : Value) : Frame :=
  match frame_get fr s with
  | some _ => fr
  | none => (s, v) :: fr

/-- Environment::get_value: check the local frame, else delegate to the
outer frame; exhausting the chain throws "undefined variable 's'...". -/
def get_value : Env → String → Except Err Value
  | [], s => .error (.undefinedVariable s)
  | fr :: rest, s =>
    match frame_get fr s with
    | some v => .ok v
    | none => get_value rest s

/-- set_value applied to the innermost frame of a chain, the frame the
DEFINITION case of eval writes into. -/
def env_set : Env → String → Value → Env
  | [], _, _ => []
  | fr :: rest, s, v => set_value fr s v :: rest

/-- Environment::make_with_builtins: a root environment holding only the
puts builtin, Function("arg", print-and-return-Nil). -/
def make_with_builtins : Env := [[("puts", Value.fn "arg" FnCode.putsPrim)]]

/-- Two's-complement wrap of a 64-bit signed integer: what the C++ longs
in the INFIX case do on overflow. -/
def wrap64 (x : Int) : Int := (x + 2 ^ 63) % 2 ^ 64 - 2 ^ 63

/-- Result of evaluating one node: either an error, or the value, the
updated environment chain, and the lines printed to standard output. -/
abbrev EvalRes := Except Err (Value × Env × List String)

/-- The STATEMENTS loop: evaluate every child in order with the shared
environment, discard all results but the last; empty list yields Nil. -/
def evalSeq (evalF : Ast → Env → EvalRes) : List Ast → Env → EvalRes
  | [], env => .ok (.nil, env, [])
  | [a], env => evalF a env
  | a :: b :: rest, env =>
    match evalF a env with
    | .error e => .error e
    | .ok (_, env1, o1) =>
      match evalSeq evalF (b :: rest) env1 with
      | .error e => .error e
      | .ok (v, env2, o2) => .ok (v, env2, o1 ++ o2)

/-- The INFIX fold: against each (operator, operand) pair evaluate the
operand, coerce to long, and apply `+` or `-` to the accumulator (any
other token leaves it unchanged, as the C++ if/else chain does). -/
def evalOps (evalF : Ast → Env → EvalRes) :
    Int → List (String × Ast) → Env → Except Err (Int × Env × List String)
  | l, [], env => .ok (l, env, [])
  | l, (op, e) :: rest, env =>
    match evalF e env with
    | .error er => .error er
    | .ok (v, env1, o1) =>
      match v.to_long with
      | .error er => .error er
      | .ok r =>
        match evalOps evalF
            (if op = "+" then wrap64 (l + r)
             else if op = "-" then wrap64 (l - r) else l) rest env1 with
        | .error er => .error er
        | .ok (lf, env2, o2) => .ok (lf, env2, o1 ++ o2)

/-- The FOR loop body: k remaining iterations starting at index i.  Each
iteration builds a fresh child frame binding the identifier to i,
evaluates the body there, and continues with the (possibly mutated)
parent chain, which is the tail of the returned chain. -/
def run_for (evalF : Ast → Env → EvalRes) (nm : String) (body : Ast) :
    Nat → Int → Env → Except Err (Env × List String)
  | 0, _, env => .ok (env, [])
  | k + 1, i, env =>
    match evalF body ([(nm, Value.long i)] :: env) with
    | .error er => .error er
    | .ok (_, envb, o1) =>
      match run_for evalF nm body k (i + 1) envb.tail with
      | .error er => .error er
      | .ok (env2, o2) => .ok (env2, o1 ++ o2)

/-- The evaluator of fib.cc, one case per AST tag, with a fuel argument
bounding the call depth (the C++ version recurses on the host stack).
CALL: look the callee's token up, coerce to function, evaluate the
argument in the caller's environment, make a child of the caller's
environment binding the parameter, run the function's code there, and
catch any thrown Value as the call's result. -/
def eval : Nat → Ast → Env → EvalRes
  | 0, _, _ => .error .outOfFuel
  | f + 1, ast, env =>
    match ast with
    | .statements ss => evalSeq (fun a e => eval f a e) ss env
    | .definition name param body =>
      .ok (.nil, env_set env name (.fn param (.bodyAst body)), [])
    | .ternary c t e =>
      match eval f c env with
      | .error er => .error er
      | .ok (cv, env1, o1) =>
        match cv.to_bool with
        | .error er => .error er
        | .ok b =>
          match eval f (if b then t else e) env1 with
          | .error er => .error er
          | .ok (v, env2, o2) => .ok (v, env2, o1 ++ o2)
    | .condition l r =>
      match eval f l env with
      | .error er => .error er
      | .ok (lv, env1, o1) =>
        match eval f r env1 with
        | .error er => .error er
        | .ok (rv, env2, o2) =>
          match lv.lt rv with
          | .error er => .error er
          | .ok b => .ok (.bool b, env2, o1 ++ o2)
    | .arith first rest =>
      match eval f first env with
      | .error er => .error er
      | .ok (v, env1, o1) =>
        match v.to_long with
        | .error er => .error er
        | .ok l =>
          match evalOps (fun a e => eval f a e) l rest env1 with
          | .error er => .error er
          | .ok (lf, env2, o2) => .ok (.long lf, env2, o1 ++ o2)
    | .call name arg =>
      match get_value env name with
      | .error er => .error er
      | .ok fv =>
        match fv.to_function with
        | .error er => .error er
        | .ok (param, code) =>
          match eval f arg env with
          | .error er => .error er
          | .ok (av, env1, o1) =>
            match (match code with
                   | .bodyAst b => eval f b ([(param, av)] :: env1)
                   | .putsPrim =>
                     match get_value ([(param, av)] :: env1) "arg" with
                     | .error er => .error er
                     | .ok v => .ok (Value.nil, [(param, av)] :: env1, [v.str])) with
            | .ok (v2, env2, o2) => .ok (v2, env2.tail, o1 ++ o2)
            | .error (.thrownValue v) => .ok (v, env1, o1)
            | .error er => .error er
    | .forLoop nm lo hi body =>
      match eval f lo env with
      | .error er => .error er
      | .ok (lv, env1, o1) =>
        match lv.to_long with
        | .error er => .error er
        | .ok a =>
          match eval f hi env1 with
          | .error er => .error er
          | .ok (hv, env2, o2) =>
            match hv.to_long with
            | .error er => .error er
            | .ok b =>
              match run_for (fun a2 e2 => eval f a2 e2) nm body
                  (b + 1 - a).toNat a env2 with
              | .error er => .error er
              | .ok (env3, o3) => .ok (.nil, env3, o1 ++ o2 ++ o3)
    | .ident s =>
      match get_value env s with
      | .error er => .error er
      | .ok v => .ok (v, env, [])
    | .number n => .ok (.long n, env, [])


/-- Value::to_bool fails only with "type error.". -/
lemma to_bool_error {x : Value} {e : Err} (h : x.to_bool = .error e) : e = .typeError := by
  cases x <;> simp_all [Value.to_bool]

/-- Value::to_long fails only with "type error.". -/
lemma to_long_error {x : Value} {e : Err} (h : x.to_long = .error e) : e = .typeError := by
  cases x <;> simp_all [Value.to_long]

/-- Value::to_function fails only with "type error.". -/
lemma to_function_error {x : Value} {e : Err}
    (h : x.to_function = .error e) : e = .typeError := by
  cases x <;> simp_all [Value.to_function]

/-- Environment::get_value fails only with an undefined-variable error,
and it names the variable it was asked for. -/
lemma get_value_error {env : Env} {s : String} {e : Err}
    (h : get_value env s = .error e) : e = .undefinedVariable s := by
  induction env with
  | nil => simp_all [get_value]
  | cons fr rest ih =>
    simp only [get_value] at h
    split at h
    · simp at h
    · exact ih h

/-- Value::operator< fails only with a type error or the internal
logic_error of its default branch, never with a thrown Value. -/
lemma lt_error {a b : Value} {e : Err} (h : Value.lt a b = .error e) :
    e = .typeError ∨ e = .invalidInternal := by
  cases a <;> simp only [Value.lt] at h
  · simp at h
  · split at h
    · simp at h
    · rename_i e2 heq
      injection h with h2
      subst h2
      exact Or.inl (to_bool_error heq)
  · split at h
    · simp at h
    · rename_i e2 heq
      injection h with h2
      subst h2
      exact Or.inl (to_long_error heq)
  · injection h with h2
    subst h2
    exact Or.inr rfl

/-- The statements loop propagates only errors its argument evaluator
produced: it never yields a thrown Value if the argument never does. -/
lemma evalSeq_noThrown {evalF : Ast → Env → EvalRes}
    (h : ∀ a e v, evalF a e ≠ .error (.thrownValue v)) :
    ∀ ss env v, evalSeq evalF ss env ≠ .error (.thrownValue v) := by
  intro ss
  induction ss with
  | nil => intro env v hEq; simp [evalSeq] at hEq
  | cons a rest ih =>
    cases rest with
    | nil => intro env v hEq; exact h a env v (by simpa [evalSeq] using hEq)
    | cons b r2 =>
      intro env v hEq
      simp only [evalSeq] at hEq
      split at hEq
      · rename_i e heq
        injection hEq with h2
        subst h2
        exact h a env v heq
      · split at hEq
        · rename_i e heq
          injection hEq with h2
          subst h2
          exact ih _ v heq
        · simp at hEq

/-- The INFIX fold never yields a thrown Value if the argument evaluator
never does. -/
lemma evalOps_noThrown {evalF : Ast → Env → EvalRes}
    (h : ∀ a e v, evalF a e ≠ .error (.thrownValue v)) :
    ∀ rest l env v, evalOps evalF l rest env ≠ .error (.thrownValue v) := by
  intro rest
  induction rest with
  | nil => intro l env v hEq; simp [evalOps] at hEq
  | cons p r2 ih =>
    intro l env v hEq
    obtain ⟨op, e⟩ := p
    simp only [evalOps] at hEq
    split at hEq
    · rename_i er heq
      injection hEq with h2
      subst h2
      exact h e env v heq
    · split at hEq
      · rename_i er heq
        injection hEq with h2
        subst h2
        exact Err.noConfusion (to_long_error heq)
      · split at hEq
        · rename_i er heq
          injection hEq with h2
          subst h2
          exact ih _ _ v heq
        · simp at hEq

/-- The FOR loop never yields a thrown Value if the argument evaluator
never does. -/
lemma run_for_noThrown {evalF : Ast → Env → EvalRes}
    (h : ∀ a e v, evalF a e ≠ .error (.thrownValue v)) (nm : String) (body : Ast) :
    ∀ k i env v, run_for evalF nm body k i env ≠ .error (.thrownValue v) := by
  intro k
  induction k with
  | zero => intro i env v hEq; simp [run_for] at hEq
  | succ k ih =>
    intro i env v hEq
    simp only [run_for] at hEq
    split at hEq
    · rename_i er heq
      injection hEq with h2
      subst h2
      exact h body _ v heq
    · split at hEq
      · rename_i er heq
        injection hEq with h2
        subst h2
        exact ih _ _ v heq
      · simp at hEq

/-- No evaluation path ever produces a thrown Value: the only throw sites
of the interpreter are the type errors, the undefined-variable error and
operator<'s logic_error, none of which is a Value. -/
lemma eval_noThrown : ∀ (f : Nat) (a : Ast) (env : Env) (v : Value),
    eval f a env ≠ .error (.thrownValue v) := by
  intro f
  induction f with
  | zero => intro a env v hEq; simp [eval] at hEq
  | succ f ih =>
    intro a env v hEq
    cases a with
    | statements ss =>
      exact evalSeq_noThrown (fun a e v => ih a e v) ss env v (by simpa [eval] using hEq)
    | definition n p b => simp [eval] at hEq
    | ternary c t e =>
      simp only [eval] at hEq
      split at hEq
      · rename_i er heq
        injection hEq with h2
        subst h2
        exact ih c env v heq
      · split at hEq
        · rename_i er heq
          injection hEq with h2
          subst h2
          exact Err.noConfusion (to_bool_error heq)
        · split at hEq
          · rename_i er heq
            injection hEq with h2
            subst h2
            exact ih _ _ v heq
          · simp at hEq
    | condition l r =>
      simp only [eval] at hEq
      split at hEq
      · rename_i er heq
        injection hEq with h2
        subst h2
        exact ih l env v heq
      · split at hEq
        · rename_i er heq
          injection hEq with h2
          subst h2
          exact ih r _ v heq
        · split at hEq
          · rename_i er heq
            injection hEq with h2
            subst h2
            rcases lt_error heq with h3 | h3 <;> exact Err.noConfusion h3
          · simp at hEq
    | arith first rest =>
      simp only [eval] at hEq
      split at hEq
      · rename_i er heq
        injection hEq with h2
        subst h2
        exact ih first env v heq
      · split at hEq
        · rename_i er heq
          injection hEq with h2
          subst h2
          exact Err.noConfusion (to_long_error heq)
        · split at hEq
          · rename_i er heq
            injection hEq with h2
            subst h2
            exact evalOps_noThrown (fun a e v => ih a e v) rest _ _ v heq
          · simp at hEq
    | call name arg =>
      simp only [eval] at hEq
      split at hEq
      · rename_i er heq
        injection hEq with h2
        subst h2
        exact Err.noConfusion (get_value_error heq)
      · split at hEq
        · rename_i er heq
          injection hEq with h2
          subst h2
          exact Err.noConfusion (to_function_error heq)
        · split at hEq
          · rename_i er heq
            injection hEq with h2
            subst h2
            exact ih arg env v heq
          · split at hEq
            · simp at hEq
            · simp at hEq
            · rename_i er hne heq
              injection hEq with h2
              subst h2
              split at heq
              · exact ih _ _ v heq
              · split at heq
                · rename_i er2 heq2
                  injection heq with h3
                  subst h3
                  exact Err.noConfusion (get_value_error heq2)
                · simp at heq
    | forLoop nm lo hi body =>
      simp only [eval] at hEq
      split at hEq
      · rename_i er heq
        injection hEq with h2
        subst h2
        exact ih lo env v heq
      · split at hEq
        · rename_i er heq
          injection hEq with h2
          subst h2
          exact Err.noConfusion (to_long_error heq)
        · split at hEq
          · rename_i er heq
            injection hEq with h2
            subst h2
            exact ih hi _ v heq
          · split at hEq
            · rename_i er heq
              injection hEq with h2
              subst h2
              exact Err.noConfusion (to_long_error heq)
            · split at hEq
              · rename_i er heq
                injection hEq with h2
                subst h2
                exact run_for_noThrown (fun a e v => ih a e v) nm body _ _ _ v heq
              · simp at hEq
    | ident s =>
      simp only [eval] at hEq
      split at hEq
      · rename_i er heq
        injection hEq with h2
        subst h2
        exact Err.noConfusion (get_value_error heq)
      · simp at hEq
    | number n => simp [eval] at hEq

/-- An evaluator preserves the outer chain: whatever it does to the
innermost frame, the frames outside the one it was handed stay intact. -/
def TailPres (evalF : Ast → Env → EvalRes) : Prop :=
  ∀ a env v env2 o, evalF a env = .ok (v, env2, o) → env2.tail = env.tail

/-- env_set touches only the innermost frame. -/
lemma env_set_tail (env : Env) (s : String) (v : Value) :
    (env_set env s v).tail = env.tail := by
  cases env <;> simp [env_set]

/-- The statements loop inherits outer-chain preservation. -/
lemma evalSeq_tail {evalF : Ast → Env → EvalRes} (h : TailPres evalF) :
    ∀ ss env v env2 o, evalSeq evalF ss env = .ok (v, env2, o) → env2.tail = env.tail := by
  intro ss
  induction ss with
  | nil =>
    intro env v env2 o hEq
    simp only [evalSeq, Except.ok.injEq, Prod.mk.injEq] at hEq
    obtain ⟨-, h2, -⟩ := hEq
    rw [h2]
  | cons a rest ih =>
    cases rest with
    | nil => intro env v env2 o hEq; exact h a env v env2 o (by simpa [evalSeq] using hEq)
    | cons b r2 =>
      intro env v env2 o hEq
      simp only [evalSeq] at hEq
      rcases h1 : evalF a env with er | ⟨v1, env1, o1⟩ <;> simp only [h1] at hEq
      · simp at hEq
      · rcases h2 : evalSeq evalF (b :: r2) env1 with er | ⟨v2, env2b, o2⟩ <;> simp only [h2] at hEq
        · simp at hEq
        · simp only [Except.ok.injEq, Prod.mk.injEq] at hEq
          obtain ⟨-, h3, -⟩ := hEq
          subst h3
          exact (ih _ _ _ _ h2).trans (h a env _ _ _ h1)

/-- The INFIX fold inherits outer-chain preservation. -/
lemma evalOps_tail {evalF : Ast → Env → EvalRes} (h : TailPres evalF) :
    ∀ rest l env lf env2 o, evalOps evalF l rest env = .ok (lf, env2, o) →
      env2.tail = env.tail := by
  intro rest
  induction rest with
  | nil =>
    intro l env lf env2 o hEq
    simp only [evalOps, Except.ok.injEq, Prod.mk.injEq] at hEq
    obtain ⟨-, h2, -⟩ := hEq
    rw [h2]
  | cons p r2 ih =>
    intro l env lf env2 o hEq
    obtain ⟨op, e⟩ := p
    simp only [evalOps] at hEq
    rcases h1 : evalF e env with er | ⟨v1, env1, o1⟩ <;> simp only [h1] at hEq
    · simp at hEq
    · rcases hl : v1.to_long with er | r <;> simp only [hl] at hEq
      · simp at hEq
      · rcases h2 : evalOps evalF (if op = "+" then wrap64 (l + r)
            else if op = "-" then wrap64 (l - r) else l) r2 env1 with er | ⟨lf2, env2b, o2⟩ <;>
          simp only [h2] at hEq
        · simp at hEq
        · simp only [Except.ok.injEq, Prod.mk.injEq] at hEq
          obtain ⟨-, h3, -⟩ := hEq
          subst h3
          exact (ih _ _ _ _ _ h2).trans (h e env _ _ _ h1)

/-- The FOR loop returns exactly the chain it was given: each iteration
works in a fresh child frame and hands back that frame's tail. -/
lemma run_for_env {evalF : Ast → Env → EvalRes} (h : TailPres evalF)
    (nm : String) (body : Ast) :
    ∀ k i env env2 o, run_for evalF nm body k i env = .ok (env2, o) → env2 = env := by
  intro k
  induction k with
  | zero =>
    intro i env env2 o hEq
    simp only [run_for, Except.ok.injEq, Prod.mk.injEq] at hEq
    exact hEq.1.symm
  | succ k ih =>
    intro i env env2 o hEq
    simp only [run_for] at hEq
    rcases h1 : evalF body ([(nm, Value.long i)] :: env) with er | ⟨v1, envb, o1⟩ <;>
      simp only [h1] at hEq
    · simp at hEq
    · rcases h2 : run_for evalF nm body k (i + 1) envb.tail with er | ⟨env2b, o2⟩ <;>
        simp only [h2] at hEq
      · simp at hEq
      · simp only [Except.ok.injEq, Prod.mk.injEq] at hEq
        obtain ⟨h3, -⟩ := hEq
        subst h3
        have h4 : envb.tail = env := h body _ _ _ _ h1
        rw [ih _ _ _ _ h2, h4]

/-- Evaluation leaves every frame outside the one it receives intact:
set_value writes only to the frame it is called on, and CALL and FOR
discard their fresh child frames when done. -/
lemma eval_tail : ∀ f : Nat, TailPres (eval f) := by
  intro f
  induction f with
  | zero => intro a env v env2 o hEq; simp [eval] at hEq
  | succ f ih =>
    intro a env v env2 o hEq
    cases a with
    | statements ss =>
      exact evalSeq_tail ih ss env v env2 o (by simpa [eval] using hEq)
    | definition name param body =>
      simp only [eval, Except.ok.injEq, Prod.mk.injEq] at hEq
      obtain ⟨-, h2, -⟩ := hEq
      rw [← h2, env_set_tail]
    | ternary c t e =>
      simp only [eval] at hEq
      rcases h1 : eval f c env with er | ⟨cv, env1, o1⟩ <;> simp only [h1] at hEq
      · simp at hEq
      · rcases hb : cv.to_bool with er | b <;> simp only [hb] at hEq
        · simp at hEq
        · rcases h2 : eval f (if b then t else e) env1 with er | ⟨v2, env2b, o2⟩ <;>
            simp only [h2] at hEq
          · simp at hEq
          · simp only [Except.ok.injEq, Prod.mk.injEq] at hEq
            obtain ⟨-, h3, -⟩ := hEq
            subst h3
            exact (ih _ _ _ _ _ h2).trans (ih _ _ _ _ _ h1)
    | condition l r =>
      simp only [eval] at hEq
      rcases h1 : eval f l env with er | ⟨lv, env1, o1⟩ <;> simp only [h1] at hEq
      · simp at hEq
      · rcases h2 : eval f r env1 with er | ⟨rv, env2b, o2⟩ <;> simp only [h2] at hEq
        · simp at hEq
        · rcases h3 : lv.lt rv with er | b <;> simp only [h3] at hEq
          · simp at hEq
          · simp only [Except.ok.injEq, Prod.mk.injEq] at hEq
            obtain ⟨-, h4, -⟩ := hEq
            subst h4
            exact (ih _ _ _ _ _ h2).trans (ih _ _ _ _ _ h1)
    | arith first rest =>
      simp only [eval] at hEq
      rcases h1 : eval f first env with er | ⟨fv, env1, o1⟩ <;> simp only [h1] at hEq
      · simp at hEq
      · rcases hl : fv.to_long with er | l <;> simp only [hl] at hEq
        · simp at hEq
        · rcases h2 : evalOps (fun a e => eval f a e) l rest env1 with er | ⟨lf, env2b, o2⟩ <;>
            simp only [h2] at hEq
          · simp at hEq
          · simp only [Except.ok.injEq, Prod.mk.injEq] at hEq
            obtain ⟨-, h3, -⟩ := hEq
            subst h3
            exact (evalOps_tail ih rest _ _ _ _ _ h2).trans (ih _ _ _ _ _ h1)
    | call name arg =>
      simp only [eval] at hEq
      rcases hg : get_value env name with er | fv <;> simp only [hg] at hEq
      · simp at hEq
      · rcases hf : fv.to_function with er | ⟨param, code⟩ <;> simp only [hf] at hEq
        · simp at hEq
        · rcases h1 : eval f arg env with er | ⟨av, env1, o1⟩ <;> simp only [h1] at hEq
          · simp at hEq
          · cases code with
            | bodyAst b =>
              rcases h2 : eval f b ([(param, av)] :: env1) with er | ⟨v2, env2b, o2⟩ <;>
                simp only [h2] at hEq
              · rcases er with _ | _ | _ | _ | tv
                · simp at hEq
                · simp at hEq
                · simp at hEq
                · simp at hEq
                · simp only [Except.ok.injEq, Prod.mk.injEq] at hEq
                  obtain ⟨-, h3, -⟩ := hEq
                  subst h3
                  exact ih _ _ _ _ _ h1
              · simp only [Except.ok.injEq, Prod.mk.injEq] at hEq
                obtain ⟨-, h3, -⟩ := hEq
                subst h3
                have h4 := ih _ _ _ _ _ h2
                simp only [List.tail_cons] at h4
                rw [h4]
                exact ih _ _ _ _ _ h1
            | putsPrim =>
              rcases hp : get_value ([(param, av)] :: env1) "arg" with er | pv <;>
                simp only [hp] at hEq
              · rcases er with _ | _ | _ | _ | tv
                · simp at hEq
                · simp at hEq
                · simp at hEq
                · simp at hEq
                · exact Err.noConfusion (get_value_error hp)
              · simp only [List.tail_cons, Except.ok.injEq, Prod.mk.injEq] at hEq
                obtain ⟨-, h3, -⟩ := hEq
                subst h3
                exact ih _ _ _ _ _ h1
    | forLoop nm lo hi body =>
      simp only [eval] at hEq
      rcases h1 : eval f lo env with er | ⟨lv, env1, o1⟩ <;> simp only [h1] at hEq
      · simp at hEq
      · rcases hl : lv.to_long with er | a2 <;> simp only [hl] at hEq
        · simp at hEq
        · rcases h2 : eval f hi env1 with er | ⟨hv, env2b, o2⟩ <;> simp only [h2] at hEq
          · simp at hEq
          · rcases hh : hv.to_long with er | b2 <;> simp only [hh] at hEq
            · simp at hEq
            · rcases h3 : run_for (fun a2 e2 => eval f a2 e2) nm body
                  (b2 + 1 - a2).toNat a2 env2b with er | ⟨env3, o3⟩ <;> simp only [h3] at hEq
              · simp at hEq
              · simp only [Except.ok.injEq, Prod.mk.injEq] at hEq
                obtain ⟨-, h4, -⟩ := hEq
                subst h4
                rw [run_for_env ih nm body _ _ _ _ _ h3]
                exact (ih _ _ _ _ _ h2).trans (ih _ _ _ _ _ h1)
    | ident s =>
      simp only [eval] at hEq
      rcases hg : get_value env s with er | v2 <;> simp only [hg] at hEq
      · simp at hEq
      · simp only [Except.ok.injEq, Prod.mk.injEq] at hEq
        obtain ⟨-, h3, -⟩ := hEq
        subst h3
        rfl
    | number n =>
      simp only [eval, Except.ok.injEq, Prod.mk.injEq] at hEq
      obtain ⟨-, h3, -⟩ := hEq
      subst h3
      rfl

mutual
/-- True when the node contains no DEFINITION node anywhere; every node
the grammar derives from EXPRESSION is definition-free, since DEFINITION
occurs only as a direct child of STATEMENTS. -/
def defFree : Ast → Bool
  | .statements ss => defFreeList ss
  | .definition _ _ _ => false
  | .ternary c t e => defFree c && defFree t && defFree e
  | .condition l r => defFree l && defFree r
  | .arith first rest => defFree first && defFreeOps rest
  | .call _ arg => defFree arg
  | .forLoop _ lo hi body => defFree lo && defFree hi && defFree body
  | .ident _ => true
  | .number _ => true

/-- defFree over a list of statement nodes. -/
def defFreeList : List Ast → Bool
  | [] => true
  | a :: r => defFree a && defFreeList r

/-- defFree over the operator/operand pairs of an INFIX node. -/
def defFreeOps : List (String × Ast) → Bool
  | [] => true
  | (_, a) :: r => defFree a && defFreeOps r
end

/-- The statements loop preserves the environment when every child does. -/
lemma evalSeq_pres {evalF : Ast → Env → EvalRes}
    (h : ∀ a env v env2 o, defFree a = true → evalF a env = .ok (v, env2, o) → env2 = env) :
    ∀ ss env v env2 o, defFreeList ss = true →
      evalSeq evalF ss env = .ok (v, env2, o) → env2 = env := by
  intro ss
  induction ss with
  | nil =>
    intro env v env2 o hd hEq
    simp only [evalSeq, Except.ok.injEq, Prod.mk.injEq] at hEq
    exact hEq.2.1.symm
  | cons a rest ih =>
    cases rest with
    | nil =>
      intro env v env2 o hd hEq
      simp only [defFreeList, Bool.and_eq_true] at hd
      exact h a env v env2 o hd.1 (by simpa [evalSeq] using hEq)
    | cons b r2 =>
      intro env v env2 o hd hEq
      simp only [defFreeList, Bool.and_eq_true] at hd
      simp only [evalSeq] at hEq
      rcases h1 : evalF a env with er | ⟨v1, env1, o1⟩ <;> simp only [h1] at hEq
      · simp at hEq
      · rcases h2 : evalSeq evalF (b :: r2) env1 with er | ⟨v2, env2b, o2⟩ <;>
          simp only [h2] at hEq
        · simp at hEq
        · simp only [Except.ok.injEq, Prod.mk.injEq] at hEq
          obtain ⟨-, h3, -⟩ := hEq
          subst h3
          rw [ih _ _ _ _ (by simp [defFreeList, hd.2.1, hd.2.2]) h2]
          exact h a env _ _ _ hd.1 h1

/-- The INFIX fold preserves the environment when every operand does. -/
lemma evalOps_pres {evalF : Ast → Env → EvalRes}
    (h : ∀ a env v env2 o, defFree a = true → evalF a env = .ok (v, env2, o) → env2 = env) :
    ∀ rest l env lf env2 o, defFreeOps rest = true →
      evalOps evalF l rest env = .ok (lf, env2, o) → env2 = env := by
  intro rest
  induction rest with
  | nil =>
    intro l env lf env2 o hd hEq
    simp only [evalOps, Except.ok.injEq, Prod.mk.injEq] at hEq
    exact hEq.2.1.symm
  | cons p r2 ih =>
    intro l env lf env2 o hd hEq
    obtain ⟨op, e⟩ := p
    simp only [defFreeOps, Bool.and_eq_true] at hd
    simp only [evalOps] at hEq
    rcases h1 : evalF e env with er | ⟨v1, env1, o1⟩ <;> simp only [h1] at hEq
    · simp at hEq
    · rcases hl : v1.to_long with er | r <;> simp only [hl] at hEq
      · simp at hEq
      · rcases h2 : evalOps evalF (if op = "+" then wrap64 (l + r)
            else if op = "-" then wrap64 (l - r) else l) r2 env1 with er | ⟨lf2, env2b, o2⟩ <;>
          simp only [h2] at hEq
        · simp at hEq
        · simp only [Except.ok.injEq, Prod.mk.injEq] at hEq
          obtain ⟨-, h3, -⟩ := hEq
          subst h3
          rw [ih _ _ _ _ _ hd.2 h2]
          exact h e env _ _ _ hd.1 h1

/-- Evaluating a definition-free node returns the very environment chain
it was given: only a DEFINITION node writes into the frame eval receives;
CALL and FOR bind names only in fresh child frames they then discard. -/
lemma eval_pres : ∀ (f : Nat) (a : Ast) (env : Env) (v : Value) (env2 : Env) (o : List String),
    defFree a = true → eval f a env = .ok (v, env2, o) → env2 = env := by
  intro f
  induction f with
  | zero => intro a env v env2 o hd hEq; simp [eval] at hEq
  | succ f ih =>
    intro a env v env2 o hd hEq
    cases a with
    | statements ss =>
      simp only [defFree] at hd
      exact evalSeq_pres ih ss env v env2 o hd (by simpa [eval] using hEq)
    | definition name param body => simp [defFree] at hd
    | ternary c t e =>
      simp only [defFree, Bool.and_eq_true] at hd
      simp only [eval] at hEq
      rcases h1 : eval f c env with er | ⟨cv, env1, o1⟩ <;> simp only [h1] at hEq
      · simp at hEq
      · rcases hb : cv.to_bool with er | b <;> simp only [hb] at hEq
        · simp at hEq
        · rcases h2 : eval f (if b then t else e) env1 with er | ⟨v2, env2b, o2⟩ <;>
            simp only [h2] at hEq
          · simp at hEq
          · simp only [Except.ok.injEq, Prod.mk.injEq] at hEq
            obtain ⟨-, h3, -⟩ := hEq
            subst h3
            have hbr : defFree (if b then t else e) = true := by
              cases b <;> simp [hd.1.2, hd.2]
            rw [ih _ _ _ _ _ hbr h2]
            exact ih _ _ _ _ _ hd.1.1 h1
    | condition l r =>
      simp only [defFree, Bool.and_eq_true] at hd
      simp only [eval] at hEq
      rcases h1 : eval f l env with er | ⟨lv, env1, o1⟩ <;> simp only [h1] at hEq
      · simp at hEq
      · rcases h2 : eval f r env1 with er | ⟨rv, env2b, o2⟩ <;> simp only [h2] at hEq
        · simp at hEq
        · rcases h3 : lv.lt rv with er | b <;> simp only [h3] at hEq
          · simp at hEq
          · simp only [Except.ok.injEq, Prod.mk.injEq] at hEq
            obtain ⟨-, h4, -⟩ := hEq
            subst h4
            rw [ih _ _ _ _ _ hd.2 h2]
            exact ih _ _ _ _ _ hd.1 h1
    | arith first rest =>
      simp only [defFree, Bool.and_eq_true] at hd
      simp only [eval] at hEq
      rcases h1 : eval f first env with er | ⟨fv, env1, o1⟩ <;> simp only [h1] at hEq
      · simp at hEq
      · rcases hl : fv.to_long with er | l <;> simp only [hl] at hEq
        · simp at hEq
        · rcases h2 : evalOps (fun a e => eval f a e) l rest env1 with er | ⟨lf, env2b, o2⟩ <;>
            simp only [h2] at hEq
          · simp at hEq
          · simp only [Except.ok.injEq, Prod.mk.injEq] at hEq
            obtain ⟨-, h3, -⟩ := hEq
            subst h3
            rw [evalOps_pres ih rest _ _ _ _ _ hd.2 h2]
            exact ih _ _ _ _ _ hd.1 h1
    | call name arg =>
      simp only [defFree] at hd
      simp only [eval] at hEq
      rcases hg : get_value env name with er | fv <;> simp only [hg] at hEq
      · simp at hEq
      · rcases hf : fv.to_function with er | ⟨param, code⟩ <;> simp only [hf] at hEq
        · simp at hEq
        · rcases h1 : eval f arg env with er | ⟨av, env1, o1⟩ <;> simp only [h1] at hEq
          · simp at hEq
          · cases code with
            | bodyAst b =>
              rcases h2 : eval f b ([(param, av)] :: env1) with er | ⟨v2, env2b, o2⟩ <;>
                simp only [h2] at hEq
              · rcases er with _ | _ | _ | _ | tv
                · simp at hEq
                · simp at hEq
                · simp at hEq
                · simp at hEq
                · simp only [Except.ok.injEq, Prod.mk.injEq] at hEq
                  obtain ⟨-, h3, -⟩ := hEq
                  subst h3
                  exact ih _ _ _ _ _ hd h1
              · simp only [Except.ok.injEq, Prod.mk.injEq] at hEq
                obtain ⟨-, h3, -⟩ := hEq
                subst h3
                have h4 := eval_tail f _ _ _ _ _ h2
                simp only [List.tail_cons] at h4
                rw [h4]
                exact ih _ _ _ _ _ hd h1
            | putsPrim =>
              rcases hp : get_value ([(param, av)] :: env1) "arg" with er | pv <;>
                simp only [hp] at hEq
              · rcases er with _ | _ | _ | _ | tv
                · simp at hEq
                · simp at hEq
                · simp at hEq
                · simp at hEq
                · exact Err.noConfusion (get_value_error hp)
              · simp only [List.tail_cons, Except.ok.injEq, Prod.mk.injEq] at hEq
                obtain ⟨-, h3, -⟩ := hEq
                subst h3
                exact ih _ _ _ _ _ hd h1
    | forLoop nm lo hi body =>
      simp only [defFree, Bool.and_eq_true] at hd
      simp only [eval] at hEq
      rcases h1 : eval f lo env with er | ⟨lv, env1, o1⟩ <;> simp only [h1] at hEq
      · simp at hEq
      · rcases hl : lv.to_long with er | a2 <;> simp only [hl] at hEq
        · simp at hEq
        · rcases h2 : eval f hi env1 with er | ⟨hv, env2b, o2⟩ <;> simp only [h2] at hEq
          · simp at hEq
          · rcases hh : hv.to_long with er | b2 <;> simp only [hh] at hEq
            · simp at hEq
            · rcases h3 : run_for (fun a2 e2 => eval f a2 e2) nm body
                  (b2 + 1 - a2).toNat a2 env2b with er | ⟨env3, o3⟩ <;> simp only [h3] at hEq
              · simp at hEq
              · simp only [Except.ok.injEq, Prod.mk.injEq] at hEq
                obtain ⟨-, h4, -⟩ := hEq
                subst h4
                rw [run_for_env (eval_tail f) nm body _ _ _ _ _ h3]
                rw [ih _ _ _ _ _ hd.1.2 h2]
                exact ih _ _ _ _ _ hd.1.1 h1
    | ident s =>
      simp only [eval] at hEq
      rcases hg : get_value env s with er | v2 <;> simp only [hg] at hEq
      · simp at hEq
      · simp only [Except.ok.injEq, Prod.mk.injEq] at hEq
        obtain ⟨-, h3, -⟩ := hEq
        exact h3.symm
    | number n =>
      simp only [eval, Except.ok.injEq, Prod.mk.injEq] at hEq
      obtain ⟨-, h3, -⟩ := hEq
      exact h3.symm

/-- The CALL case run to completion on a user-defined function: the call's
result is exactly the result of evaluating the closure's body in a fresh
child scope of the caller's environment (after argument evaluation), with
the fresh frame dropped and the output prefixed; errors pass through
unchanged because nothing ever throws a Value into the catch handler. -/
lemma eval_call_eq {f : Nat} {name param : String} {arg b : Ast} {env env1 : Env}
    {av : Value} {o1 : List String}
    (hg : get_value env name = .ok (.fn param (.bodyAst b)))
    (h1 : eval f arg env = .ok (av, env1, o1)) :
    eval (f + 1) (.call name arg) env =
      match eval f b ([(param, av)] :: env1) with
      | .ok (v2, env2, o2) => .ok (v2, env2.tail, o1 ++ o2)
      | .error er => .error er := by
  simp only [eval, hg, Value.to_function, h1]
  rcases h2 : eval f b ([(param, av)] :: env1) with er | ⟨v2, env2, o2⟩ <;> simp only [h2]
  rcases er with _ | _ | _ | _ | tv
  · rfl
  · rfl
  · rfl
  · rfl
  · exact absurd h2 (eval_noThrown f b _ tv)

/-- When no frame of the chain binds the name, get_value reports the
undefined variable, naming it. -/
lemma get_value_miss {env : Env} {s : String} (h : ∀ fr ∈ env, frame_get fr s = none) :
    get_value env s = .error (.undefinedVariable s) := by
  induction env with
  | nil => rfl
  | cons fr rest ih =>
    simp only [get_value, h fr (by simp)]
    exact ih fun fr2 hm => h fr2 (by simp [hm])

/-- The body of the fib function:
n < 2 ? n : fib(n - 1) + fib(n - 2). -/
def fibBody : Ast :=
  .ternary (.condition (.ident "n") (.number 2))
    (.ident "n")
    (.arith (.call "fib" (.arith (.ident "n") [("-", .number 1)]))
      [("+", .call "fib" (.arith (.ident "n") [("-", .number 2)]))])

/-- def fib(n) n < 2 ? n : fib(n - 1) + fib(n - 2). -/
def fibDef : Ast := .definition "fib" "n" fibBody

/-- The root environment after evaluating fibDef in make_with_builtins. -/
def fibEnv : Env :=
  [[("fib", Value.fn "n" (.bodyAst fibBody)), ("puts", Value.fn "arg" FnCode.putsPrim)]]

/-- A program whose top-level function reads the surrounding for-loop's
variable: def seeI(x) i, then for i from 7 to 7 puts(seeI(0)). -/
def dynProg : Ast :=
  .statements [.definition "seeI" "x" (.ident "i"),
    .forLoop "i" (.number 7) (.number 7) (.call "puts" (.call "seeI" (.number 0)))]

/-- C1, counterexample: a function defined at top level and called from a
for-loop body DOES see the loop variable without it being passed: the
program prints "7" (the loop variable's value) instead of failing with
UndefinedVariable "i".  The CALL case builds the body's scope as a child
of the caller's environment; no environment is captured at definition. -/
theorem claim_C1_counterexample :
    eval 20 dynProg make_with_builtins =
      .ok (.nil, [[("seeI", Value.fn "x" (.bodyAst (.ident "i"))),
        ("puts", Value.fn "arg" FnCode.putsPrim)]], ["7"])
    ∧ eval 20 dynProg make_with_builtins ≠ .error (.undefinedVariable "i") :=
  ⟨rfl, fun h => nomatch h⟩

/-- C1 (amended): for every call of a user-defined function, the closure's
body is evaluated in a fresh child scope of the CALLER's environment (as
it stands after argument evaluation), with the formal parameter bound to
the evaluated argument in that new scope — dynamic, not lexical, scoping:
the Function value records no environment, so a top-level function called
inside a for-loop body can see the loop variable. -/
theorem claim_C1_call_scope {f : Nat} {name param : String} {arg b : Ast}
    {env env1 env2 : Env} {av v2 : Value} {o1 o2 : List String}
    (hg : get_value env name = .ok (.fn param (.bodyAst b)))
    (h1 : eval f arg env = .ok (av, env1, o1))
    (h2 : eval f b ([(param, av)] :: env1) = .ok (v2, env2, o2)) :
    eval (f + 1) (.call name arg) env = .ok (v2, env2.tail, o1 ++ o2) := by
  rw [eval_call_eq hg h1, h2]

/-- The root frame binding the identity function f. -/
def idEnv : Env := [[("f", Value.fn "x" (.bodyAst (.ident "x")))]]

/-- Witness for C1: calling the identity function on 5 in a root frame
that binds it. -/
theorem claim_C1_witness :
    eval (5 + 1) (.call "f" (.number 5)) idEnv = .ok (.long 5, idEnv, []) :=
  @claim_C1_call_scope 5 "f" "x" (.number 5) (.ident "x") idEnv idEnv
    ([("x", .long 5)] :: idEnv) (.long 5) (.long 5) [] [] rfl rfl rfl

/-- C2, counterexample: defining "x" to 1 and then re-defining it to 2 in
the same frame leaves the lookup at 1 — map::emplace does not overwrite. -/
theorem claim_C2_counterexample :
    frame_get (set_value (set_value [] "x" (.long 1)) "x" (.long 2)) "x" = some (.long 1)
    ∧ frame_get (set_value (set_value [] "x" (.long 1)) "x" (.long 2)) "x" ≠ some (.long 2) :=
  ⟨rfl, by
    intro h
    injection h with h2
    injection h2 with h3
    exact absurd h3 (by decide)⟩

/-- C2 (amended): set_value inserts only when the name is absent; after
define(name, v1) then define(name, v2) on a frame not already binding the
name, lookup yields v1 (the FIRST definition), and in general a second
define of an existing local name is a no-op on the frame. -/
theorem claim_C2_define_keeps_first :
    (∀ (fr : Frame) (s : String) (v1 v2 : Value), frame_get fr s = none →
      frame_get (set_value (set_value fr s v1) s v2) s = some v1)
    ∧ (∀ (fr : Frame) (s : String) (v : Value), (frame_get fr s).isSome →
      set_value fr s v = fr) := by
  constructor
  · intro fr s v1 v2 h
    simp [set_value, h, frame_get]
  · intro fr s v h
    rcases hf : frame_get fr s with _ | w
    · rw [hf] at h
      simp at h
    · simp [set_value, hf]

/-- Witness for C2: the empty frame, name "x", values 1 and 2. -/
theorem claim_C2_witness :
    frame_get (set_value (set_value [] "x" (.long 1)) "x" (.long 2)) "x"
      = some (.long 1) :=
  claim_C2_define_keeps_first.1 [] "x" (.long 1) (.long 2) rfl

/-- C3, counterexample: lessThan on Bool versus Integer does NOT fail
with TypeError — the right side is coerced with to_bool, so
(true < 5) evaluates to ok false; and a Closure on the LEFT fails with
the internal logic_error, not with TypeError. -/
theorem claim_C3_counterexample :
    Value.lt (.bool true) (.long 5) = .ok false
    ∧ Value.lt (.bool true) (.long 5) ≠ .error .typeError
    ∧ Value.lt (.fn "p" .putsPrim) .nil = .error .invalidInternal
    ∧ Value.lt (.fn "p" .putsPrim) .nil ≠ .error .typeError := by
  refine ⟨rfl, fun h => ?_, rfl, fun h => ?_⟩
  · exact nomatch h
  · exact nomatch h

/-- C3 (amended): lessThan is ordinary scalar ordering for Bool vs Bool
and Integer vs Integer; a Nil left is never less than anything; a Bool
left coerces the right with to_bool, so Bool vs Integer succeeds against
the integer's truthiness while Bool vs Nil/Closure fails with TypeError;
an Integer left against any non-Integer fails with TypeError; a Closure
left always fails with the internal logic_error. -/
theorem claim_C3_lessThan :
    (∀ b : Value, Value.lt .nil b = .ok false)
    ∧ (∀ x y : Bool, Value.lt (.bool x) (.bool y) = .ok (!x && y))
    ∧ (∀ (x : Bool) (n : Int), Value.lt (.bool x) (.long n) = .ok (!x && (n != 0)))
    ∧ (∀ x : Bool, Value.lt (.bool x) .nil = .error .typeError)
    ∧ (∀ (x : Bool) (p : String) (c : FnCode),
        Value.lt (.bool x) (.fn p c) = .error .typeError)
    ∧ (∀ m n : Int, Value.lt (.long m) (.long n) = .ok (decide (m < n)))
    ∧ (∀ m : Int, Value.lt (.long m) .nil = .error .typeError)
    ∧ (∀ (m : Int) (y : Bool), Value.lt (.long m) (.bool y) = .error .typeError)
    ∧ (∀ (m : Int) (p : String) (c : FnCode),
        Value.lt (.long m) (.fn p c) = .error .typeError)
    ∧ (∀ (p : String) (c : FnCode) (b : Value),
        Value.lt (.fn p c) b = .error .invalidInternal) :=
  ⟨fun _ => rfl, fun _ _ => rfl, fun _ _ => rfl, fun _ => rfl, fun _ _ _ => rfl,
   fun _ _ => rfl, fun _ => rfl, fun _ _ => rfl, fun _ _ _ => rfl, fun _ _ _ => rfl⟩

/-- C4: after evaluating def fib(n) n < 2 ? n : fib(n - 1) + fib(n - 2)
in the root environment, fib(10) yields 55, fib(0) yields 0 and fib(1)
yields 1 — the Definition binds fib into the root frame, and the call
resolves the name through the chain in effect when the body evaluates. -/
theorem claim_C4_fib :
    eval 100 (.statements [fibDef, .call "fib" (.number 10)]) make_with_builtins
      = .ok (.long 55, fibEnv, [])
    ∧ eval 100 (.statements [fibDef, .call "fib" (.number 0)]) make_with_builtins
      = .ok (.long 0, fibEnv, [])
    ∧ eval 100 (.statements [fibDef, .call "fib" (.number 1)]) make_with_builtins
      = .ok (.long 1, fibEnv, []) :=
  ⟨rfl, rfl, rfl⟩

/-- C5: an Infix node coerces the first operand to Integer and folds the
remaining operands left to right (each evaluated in order immediately
before being folded — the operands' outputs appear in left-to-right
order), applying + or - per operator token; for 64-bit-representable a
and b the results are exactly wrapping two's-complement 64-bit sums and
differences, and the result is an Integer value. -/
theorem claim_C5_arith :
    (∀ (f : Nat) (a b : Int) (env : Env),
      -2 ^ 63 ≤ a → a < 2 ^ 63 → -2 ^ 63 ≤ b → b < 2 ^ 63 →
      eval (f + 2) (.arith (.number a) [("+", .number b)]) env
          = .ok (.long (wrap64 (a + b)), env, [])
        ∧ eval (f + 2) (.arith (.number a) [("-", .number b)]) env
          = .ok (.long (wrap64 (a - b)), env, [])
        ∧ -2 ^ 63 ≤ wrap64 (a + b) ∧ wrap64 (a + b) < 2 ^ 63
        ∧ (2 ^ 64 : Int) ∣ a + b - wrap64 (a + b)
        ∧ -2 ^ 63 ≤ wrap64 (a - b) ∧ wrap64 (a - b) < 2 ^ 63
        ∧ (2 ^ 64 : Int) ∣ a - b - wrap64 (a - b))
    ∧ eval 4 (.arith (.statements [.call "puts" (.number 1), .number 10])
        [("+", .statements [.call "puts" (.number 2), .number 20]),
         ("-", .statements [.call "puts" (.number 3), .number 5])]) make_with_builtins
      = .ok (.long 25, make_with_builtins, ["1", "2", "3"]) := by
  constructor
  · intro f a b env h1 h2 h3 h4
    have hpow : (2 : Int) ^ 64 = 2 * 2 ^ 63 := by norm_num
    have hb : ∀ x : Int, -2 ^ 63 ≤ wrap64 x ∧ wrap64 x < 2 ^ 63 := by
      intro x
      have e1 : (0 : Int) ≤ (x + 2 ^ 63) % 2 ^ 64 := Int.emod_nonneg _ (by norm_num)
      have e2 : (x + 2 ^ 63) % 2 ^ 64 < 2 ^ 64 := Int.emod_lt_of_pos _ (by norm_num)
      unfold wrap64
      constructor <;> omega
    have hd : ∀ x : Int, (2 ^ 64 : Int) ∣ x - wrap64 x := by
      intro x
      refine ⟨(x + 2 ^ 63) / 2 ^ 64, ?_⟩
      have h5 := Int.emod_def (x + 2 ^ 63) (2 ^ 64)
      unfold wrap64
      linarith
    refine ⟨?_, ?_, (hb (a + b)).1, (hb (a + b)).2, hd (a + b),
      (hb (a - b)).1, (hb (a - b)).2, hd (a - b)⟩
    · simp [eval, evalOps, Value.to_long]
    · simp [eval, evalOps, Value.to_long]
  · rfl

/-- Witness for C5: 2^62 + 2^62 overflows to -2^63. -/
theorem claim_C5_witness :
    eval (0 + 2) (.arith (.number (2 ^ 62)) [("+", .number (2 ^ 62))]) []
      = .ok (.long (-(2 ^ 63)), [], []) := by
  have h := (claim_C5_arith.1 0 (2 ^ 62) (2 ^ 62) [] (by norm_num) (by norm_num)
    (by norm_num) (by norm_num)).1
  rw [h]
  norm_num [wrap64]

/-- Joined outputs of the loop iterations: os a, then os (a+1), and so
on, for k iterations starting at index a, concatenated in ascending
index order. -/
def joinRange (os : Int → List String) : Nat → Int → List String
  | 0, _ => []
  | k + 1, i => os i ++ joinRange os k (i + 1)

/-- The FOR loop over any number of remaining iterations: when the body
evaluates successfully at every index, the loop returns the environment
unchanged and emits the iterations' outputs in ascending index order,
each iteration run in a fresh child frame binding the identifier to its
index. -/
lemma run_for_trace {f : Nat} (nm : String) (body : Ast) (os : Int → List String) :
    ∀ (k : Nat) (i : Int) (env : Env),
      (∀ j : Int, i ≤ j → j < i + (k : Int) →
        ∃ v envb, eval f body ([(nm, .long j)] :: env) = .ok (v, envb, os j)) →
      run_for (fun a2 e2 => eval f a2 e2) nm body k i env = .ok (env, joinRange os k i) := by
  intro k
  induction k with
  | zero => intro i env hbody; simp [run_for, joinRange]
  | succ k ih =>
    intro i env hbody
    obtain ⟨v, envb, hb⟩ := hbody i (le_refl i) (by omega)
    have ht : envb.tail = env := by
      have h2 := eval_tail f body ([(nm, .long i)] :: env) v envb _ hb
      simpa using h2
    have hrec := ih (i + 1) env (fun j hj1 hj2 => hbody j (by omega) (by omega))
    simp only [run_for, hb, ht, hrec, joinRange]

/-- C6: the For node evaluates from and to once each, coerces both to
Integer, then for each integer i from from to to inclusive, ascending,
creates a fresh child scope of the current environment binding the
identifier to i and evaluates the body there, its result discarded and
its output emitted in index order; the node yields Nil, and from > to
performs zero iterations ((to + 1 - from).toNat = 0 empties the range):
for i from 5 to 3 runs zero times, for i from 2 to 2 runs exactly once
with i = 2, and for i from 1 to 3 runs three times with i = 1, 2, 3. -/
theorem claim_C6_for :
    (∀ (f : Nat) (nm : String) (lo hi body : Ast) (env env1 env2 : Env)
        (a b : Int) (o1 o2 : List String) (os : Int → List String),
      eval f lo env = .ok (.long a, env1, o1) →
      eval f hi env1 = .ok (.long b, env2, o2) →
      (∀ j : Int, a ≤ j → j ≤ b →
        ∃ v envb, eval f body ([(nm, .long j)] :: env2) = .ok (v, envb, os j)) →
      eval (f + 1) (.forLoop nm lo hi body) env
        = .ok (.nil, env2, o1 ++ o2 ++ joinRange os (b + 1 - a).toNat a))
    ∧ eval 3 (.forLoop "i" (.number 5) (.number 3) (.call "puts" (.ident "i")))
        make_with_builtins = .ok (.nil, make_with_builtins, [])
    ∧ eval 3 (.forLoop "i" (.number 2) (.number 2) (.call "puts" (.ident "i")))
        make_with_builtins = .ok (.nil, make_with_builtins, ["2"])
    ∧ eval 3 (.forLoop "i" (.number 1) (.number 3) (.call "puts" (.ident "i")))
        make_with_builtins = .ok (.nil, make_with_builtins, ["1", "2", "3"]) := by
  refine ⟨?_, rfl, rfl, rfl⟩
  intro f nm lo hi body env env1 env2 a b o1 o2 os h1 h2 hbody
  have hrf := run_for_trace nm body os (b + 1 - a).toNat a env2
    (fun j hj1 hj2 => hbody j hj1 (by omega))
  simp [eval, h1, h2, Value.to_long, hrf]

/-- Witness for C6: for i from 1 to 3 puts(i) performs three iterations,
ascending, printing 1, 2 and 3. -/
theorem claim_C6_witness :
    eval (2 + 1) (.forLoop "i" (.number 1) (.number 3) (.call "puts" (.ident "i")))
      make_with_builtins = .ok (.nil, make_with_builtins, ["1", "2", "3"]) := by
  have h := claim_C6_for.1 2 "i" (.number 1) (.number 3) (.call "puts" (.ident "i"))
    make_with_builtins make_with_builtins make_with_builtins 1 3 [] []
    (fun j => [(Value.long j).str])
    rfl rfl (fun j hj1 hj2 => ⟨.nil, [("i", Value.long j)] :: make_with_builtins, rfl⟩)
  exact h

/-- C7: a Ternary evaluates its condition, coerces it with to_bool, and
then evaluates and returns exactly one branch; the untaken branch (a free
variable of each equation, absent from the right-hand side) is never
evaluated, so its side effects do not occur — concretely, with a puts in
each branch only the taken branch's line is printed. -/
theorem claim_C7_ternary :
    (∀ (f : Nat) (c t e : Ast) (env env1 env2 : Env) (cv v : Value)
        (o1 o2 : List String),
      eval f c env = .ok (cv, env1, o1) → cv.to_bool = .ok true →
      eval f t env1 = .ok (v, env2, o2) →
      eval (f + 1) (.ternary c t e) env = .ok (v, env2, o1 ++ o2))
    ∧ (∀ (f : Nat) (c t e : Ast) (env env1 env2 : Env) (cv v : Value)
        (o1 o2 : List String),
      eval f c env = .ok (cv, env1, o1) → cv.to_bool = .ok false →
      eval f e env1 = .ok (v, env2, o2) →
      eval (f + 1) (.ternary c t e) env = .ok (v, env2, o1 ++ o2))
    ∧ eval 3 (.ternary (.number 1) (.call "puts" (.number 10)) (.call "puts" (.number 20)))
        make_with_builtins = .ok (.nil, make_with_builtins, ["10"])
    ∧ eval 3 (.ternary (.number 0) (.call "puts" (.number 10)) (.call "puts" (.number 20)))
        make_with_builtins = .ok (.nil, make_with_builtins, ["20"]) := by
  refine ⟨?_, ?_, rfl, rfl⟩
  · intro f c t e env env1 env2 cv v o1 o2 h1 hb h3
    simp [eval, h1, hb, h3]
  · intro f c t e env env1 env2 cv v o1 o2 h1 hb h3
    simp [eval, h1, hb, h3]

/-- Witness for C7: a true condition selects the then branch. -/
theorem claim_C7_witness :
    eval (1 + 1) (.ternary (.number 7) (.number 3) (.number 99)) []
      = .ok (.long 3, [], []) := by
  have h := claim_C7_ternary.1 1 (.number 7) (.number 3) (.number 99)
    [] [] [] (.long 7) (.long 3) [] [] rfl rfl rfl
  simpa using h

/-- C8: environment lookup checks the local frame first, delegates to the
outer frame on a miss, and an exhausted chain fails with UndefinedVariable
carrying the exact name; evaluating an Identifier bound in no frame fails
in exactly this way. -/
theorem claim_C8_lookup :
    (∀ s : String, get_value [] s = .error (.undefinedVariable s))
    ∧ (∀ (fr : Frame) (rest : Env) (s : String) (v : Value), frame_get fr s = some v →
        get_value (fr :: rest) s = .ok v)
    ∧ (∀ (fr : Frame) (rest : Env) (s : String), frame_get fr s = none →
        get_value (fr :: rest) s = get_value rest s)
    ∧ (∀ (f : Nat) (s : String) (env : Env), (∀ fr ∈ env, frame_get fr s = none) →
        eval (f + 1) (.ident s) env = .error (.undefinedVariable s)) := by
  refine ⟨fun s => rfl, ?_, ?_, ?_⟩
  · intro fr rest s v h
    simp [get_value, h]
  · intro fr rest s h
    simp [get_value, h]
  · intro f s env h
    simp [eval, get_value_miss h]

/-- Witness for C8: looking "zz" up through a two-frame chain binding
only "a" fails naming "zz"; a local hit returns its value. -/
theorem claim_C8_witness :
    eval (0 + 1) (.ident "zz") [[("a", Value.long 1)], []]
      = .error (.undefinedVariable "zz")
    ∧ get_value [[("a", Value.long 1)]] "a" = .ok (.long 1) := by
  constructor
  · refine claim_C8_lookup.2.2.2 0 "zz" [[("a", Value.long 1)], []] ?_
    intro fr hm
    simp only [List.mem_cons, List.mem_singleton] at hm
    rcases hm with rfl | rfl | hm
    · rfl
    · rfl
    · simp at hm
  · exact claim_C8_lookup.2.1 [("a", Value.long 1)] [] "a" (.long 1) rfl

/-- C9: no evaluation path throws a Value as a control-flow signal, so the
call-site catch handler is dead: for every call of a user-defined
function the Call node's result is exactly the result of evaluating the
closure's body (success or error alike), never a value delivered through
the catch branch. -/
theorem claim_C9_dead_catch :
    (∀ (f : Nat) (a : Ast) (env : Env) (v : Value),
      eval f a env ≠ .error (.thrownValue v))
    ∧ (∀ (f : Nat) (name param : String) (arg b : Ast) (env env1 : Env)
        (av : Value) (o1 : List String),
      get_value env name = .ok (.fn param (.bodyAst b)) →
      eval f arg env = .ok (av, env1, o1) →
      eval (f + 1) (.call name arg) env =
        match eval f b ([(param, av)] :: env1) with
        | .ok (v2, env2, o2) => .ok (v2, env2.tail, o1 ++ o2)
        | .error er => .error er) :=
  ⟨eval_noThrown, fun _ _ _ _ _ _ _ _ _ hg h1 => eval_call_eq hg h1⟩

/-- Witness for C9: a body that fails with UndefinedVariable propagates
that very error out of the call, not a caught value. -/
theorem claim_C9_witness :
    eval (5 + 1) (.call "g" (.number 3)) [[("g", Value.fn "y" (.bodyAst (.ident "zz")))]]
      = .error (.undefinedVariable "zz") := by
  rw [claim_C9_dead_catch.2 5 "g" "y" (.number 3) (.ident "zz")
    [[("g", Value.fn "y" (.bodyAst (.ident "zz")))]]
    [[("g", Value.fn "y" (.bodyAst (.ident "zz")))]] (.long 3) [] rfl rfl]
  rfl

/-- C10, counterexample: a Statements node is not a Definition node, yet
evaluating a Statements holding a Definition writes the binding into the
very environment eval was given. -/
theorem claim_C10_counterexample :
    eval 2 (.statements [.definition "a" "x" (.number 0)]) [[]]
      = .ok (.nil, [[("a", Value.fn "x" (.bodyAst (.number 0)))]], [])
    ∧ [[("a", Value.fn "x" (.bodyAst (.number 0)))]] ≠ ([[]] : Env) :=
  ⟨rfl, by simp⟩

/-- C10 (amended): evaluating any node containing no Definition node
returns the environment chain unchanged — Call and For bind names only in
fresh child frames they discard — and the Definition case is exactly the
write of the function binding into the innermost frame of the environment
it was given (a Statements node changes the environment only through
Definition children). -/
theorem claim_C10_frame_effect :
    (∀ (f : Nat) (a : Ast) (env : Env) (v : Value) (env2 : Env) (o : List String),
      defFree a = true → eval f a env = .ok (v, env2, o) → env2 = env)
    ∧ (∀ (f : Nat) (name param : String) (body : Ast) (env : Env),
      eval (f + 1) (.definition name param body) env
        = .ok (.nil, env_set env name (.fn param (.bodyAst body)), [])) :=
  ⟨eval_pres, fun _ _ _ _ _ => rfl⟩

/-- Witness for C10: a puts call (definition-free) started from the
builtin root environment hands that same chain back. -/
theorem claim_C10_witness : make_with_builtins = make_with_builtins :=
  claim_C10_frame_effect.1 2 (.call "puts" (.number 1)) make_with_builtins
    .nil make_with_builtins ["1"] rfl rfl
